import Mathlib

/-
  Verification development for the eegviz signal-processing core.

  Shallow embedding of the Python sources:
    - src/eegviz/preprocess/windows.py   (restrict_interval, sliding_windows)
    - src/eegviz/preprocess/filtering.py (apply_pipeline)
    - src/eegviz/analysis/psd.py         (bandpower_segment window sizing)
    - src/eegviz/analysis/bands.py       (bandpower_mean window sizing)
    - src/eegviz/analysis/contrast.py    (contrast_db)
    - src/eegviz/viz/temporal_gif.py     (build_frames)
    - src/eegviz/core/session.py         (SessionManager state transitions)
    - src/eegviz/core/epochs.py          (EpochManager.create_epochs_from_labels)
    - src/eegviz/io/markers_csv.py       (add_csv_markers)

  Python floats are modelled as exact rationals (the numeric claims under
  study are about comparisons and branch selection, not rounding); numpy /
  MNE library numerics are abstracted as explicit function parameters.
-/

namespace EegViz

/-! ## Windowing utility — src/eegviz/preprocess/windows.py -/

/-- Tolerance added to the loop guard of `sliding_windows` (`1e-9` in the source). -/
def swTol : ℚ := 1 / 1000000000

/-- Embedding of `restrict_interval(total, start, end)`:
`start = max(0.0, min(start, total)); end = max(0.0, min(end, total));
if end <= start: end = min(total, start + 0.25); return start, end`. -/
def restrict_interval (total start e : ℚ) : ℚ × ℚ :=
  let s := max 0 (min start total)
  let en := max 0 (min e total)
  let en2 := if en ≤ s then min total (s + 1/4) else en
  (s, en2)

/-- The body of the `sliding_windows` generator loop, run with explicit fuel:
`while t + win <= end + 1e-9: yield (t, t+win); t += step`.  With fuel `n` the
list of windows produced by the first `n` loop iterations is returned; if the
guard is still true when the fuel runs out the loop has not terminated yet. -/
def swFuel (e win step : ℚ) : ℕ → ℚ → List (ℚ × ℚ)
  | 0, _ => []
  | n + 1, t =>
    if t + win ≤ e + swTol then (t, t + win) :: swFuel e win step n (t + step) else []

/-- The loop variable of `sliding_windows` after `n` iterations is exactly
`start + n*step`; the generator is exhausted (the Python loop terminates) iff
the guard eventually fails. -/
def swTerminates (start e win step : ℚ) : Prop :=
  ∃ n : ℕ, ¬ (start + n * step + win ≤ e + swTol)

/-- Number of iterations the `sliding_windows` loop performs when it does
terminate (0 when the guard fails immediately; the loop runs forever when
`step ≤ 0` and the first window fits, and this fuel bound is then irrelevant). -/
def swCount (start e win step : ℚ) : ℕ :=
  if 0 < step ∧ start + win ≤ e + swTol
  then (⌊(e + swTol - start - win) / step⌋).toNat + 1
  else 0

/-- Embedding of `sliding_windows(start, end, win, step)` materialised as a
list, running the
generator loop with enough fuel to reach termination whenever `step > 0`. -/
def sliding_windows (start e win step : ℚ) : List (ℚ × ℚ) :=
  swFuel e win step (swCount start e win step) start

/-! ## Session state — src/eegviz/core/session.py

A `SessionManager` keeps `eegviz_raw_data`, `eegviz_processed_data` and
`eegviz_filter_applied` in the streamlit session-state store; we model the
store as a record, the recording payload as a type parameter `α`. -/

/-- The per-session state held by `SessionManager`. -/
structure Session (α : Type) where
  raw : Option α
  processed : Option α
  filter_applied : Bool

/-- Embedding of the `raw_data` property setter: stores `value`, and when
`value is not None` clears the processed data and the filter-applied flag. -/
def set_raw_data {α : Type} (s : Session α) (v : Option α) : Session α :=
  let s1 : Session α := { s with raw := v }
  if v.isSome then { s1 with processed := none, filter_applied := false } else s1

/-- Embedding of `SessionManager.get_current_data`: processed if present,
otherwise raw. -/
def get_current_data {α : Type} (s : Session α) : Option α :=
  match s.processed with
  | some p => some p
  | none => s.raw

/-! ## Filter pipeline — src/eegviz/preprocess/filtering.py

The MNE signal transforms (`resample`, `notch_filter`, `filter`,
`interpolate_bads`, `set_eeg_reference`) are external numerics; they are
abstracted as opaque functions on the channel-data payload.  The guard of each
step and the cutoff arithmetic are translated exactly. -/

/-- A recording as the pipeline sees it: sampling rate, whether `info["bads"]`
is non-empty, and the (abstracted) channel data. -/
structure Rec (α : Type) where
  sfreq : ℚ
  hasBads : Bool
  chData : α

/-- The external MNE transforms used by `apply_pipeline`, as opaque
functions on the channel data. -/
structure PipelineOps (α : Type) where
  resampleOp : ℚ → α → α
  notchOp : ℚ → α → α
  filterOp : Option ℚ → ℚ → α → α
  interpOp : α → α
  refOp : α → α

/-- A Python object reference: an identity plus the value it currently holds. -/
structure Obj (α : Type) where
  id : ℕ
  val : α

/-- Step 1 guard and effect: `if resample and abs(proc.info["sfreq"] - resample)
> 1e-6: proc.resample(resample)` (`resample` is falsy when `None` or `0.0`). -/
def step_resample {α : Type} (F : PipelineOps α) (resample : Option ℚ) (x : Rec α) : Rec α :=
  match resample with
  | some r =>
    if r ≠ 0 ∧ |x.sfreq - r| > 1 / 1000000
    then { x with sfreq := r, chData := F.resampleOp r x.chData }
    else x
  | none => x

/-- The sampling rate after the (possibly skipped) resampling step. -/
def rate_after_resample (sf : ℚ) (resample : Option ℚ) : ℚ :=
  match resample with
  | some r => if r ≠ 0 ∧ |sf - r| > 1 / 1000000 then r else sf
  | none => sf

/-- Step 2: `if notch is not None: proc.notch_filter(...)`. -/
def step_notch {α : Type} (F : PipelineOps α) (notch : Option ℚ) (x : Rec α) : Rec α :=
  match notch with
  | some f => { x with chData := F.notchOp f x.chData }
  | none => x

/-- Python `h_freq or d`: `d` when `h_freq` is `None` or `0.0`, else `h_freq`. -/
def pyOrQ : Option ℚ → ℚ → ℚ
  | none, d => d
  | some x, d => if x = 0 then d else x

/-- The high cutoff actually passed to the band filter:
`hf = min(h_freq or (proc.info["sfreq"]/2 - 1.0), proc.info["sfreq"]/2 - 1.0)`,
where `sf` is the sampling rate of `proc` at that point (after resampling). -/
def effective_h_freq (sf : ℚ) (h_freq : Option ℚ) : ℚ :=
  min (pyOrQ h_freq (sf / 2 - 1)) (sf / 2 - 1)

/-- Step 3: `if l_freq is not None or h_freq is not None: proc.filter(l_freq,
hf, ...)` with `hf` as in `effective_h_freq`. -/
def step_filter {α : Type} (F : PipelineOps α) (l_freq h_freq : Option ℚ) (x : Rec α) : Rec α :=
  if l_freq.isSome ∨ h_freq.isSome
  then { x with chData := F.filterOp l_freq (effective_h_freq x.sfreq h_freq) x.chData }
  else x

/-- Step 4: `if interpolate and proc.info["bads"]: proc.interpolate_bads(...)`. -/
def step_interp {α : Type} (F : PipelineOps α) (interpolate : Bool) (x : Rec α) : Rec α :=
  if interpolate ∧ x.hasBads then { x with chData := F.interpOp x.chData } else x

/-- Step 5: `if ref_avg: proc.set_eeg_reference("average", ...)`. -/
def step_ref {α : Type} (F : PipelineOps α) (ref_avg : Bool) (x : Rec α) : Rec α :=
  if ref_avg then { x with chData := F.refOp x.chData } else x

/-- Embedding of `apply_pipeline(raw, notch, l_freq, h_freq, resample, ref_avg,
interpolate)`.  `proc = raw.copy()` allocates a fresh object (identity `fresh`)
carrying the same value; every subsequent statement mutates `proc` only.  The
result is the pair (the caller object `raw` as the call leaves it, the
returned `proc` object). -/
def apply_pipeline {α : Type} (F : PipelineOps α) (fresh : ℕ) (raw : Obj (Rec α))
    (notch l_freq h_freq resample : Option ℚ) (ref_avg interpolate : Bool) :
    Obj (Rec α) × Obj (Rec α) :=
  let proc : Obj (Rec α) := ⟨fresh, raw.val⟩
  let proc := { proc with val := step_resample F resample proc.val }
  let proc := { proc with val := step_notch F notch proc.val }
  let proc := { proc with val := step_filter F l_freq h_freq proc.val }
  let proc := { proc with val := step_interp F interpolate proc.val }
  let proc := { proc with val := step_ref F ref_avg proc.val }
  (raw, proc)

/-- A concrete instance of the opaque pipeline transforms, for evaluating the
pipeline on explicit inputs. -/
def demoOps : PipelineOps ℕ :=
  ⟨fun _ x => x + 1, fun _ x => x + 1, fun _ _ x => x + 1, fun x => x + 1, fun x => x + 1⟩

/-- A concrete recording object, for evaluating the pipeline on explicit
inputs. -/
def demoRaw : Obj (Rec ℕ) := ⟨0, ⟨256, false, 7⟩⟩

/-! ## Band-power window sizing — src/eegviz/analysis/psd.py and bands.py -/

/-- From `bandpower_segment`: `nfft = int(min(512, raw_seg.n_times)); nfft =
max(nfft, 64)`. -/
def nfft_psd (n_times : ℕ) : ℕ := max (min 512 n_times) 64

/-- From `bandpower_segment`: `nover = int(max(0, nfft // 2))`. -/
def nover_psd (n_times : ℕ) : ℕ := max 0 (nfft_psd n_times / 2)

/-- From `bandpower_mean` (bands.py): `nfft = int(min(512, raw.n_times));
nfft = max(nfft, 64)`. -/
def nfft_bands (n_times : ℕ) : ℕ := max (min 512 n_times) 64

/-- From `bandpower_mean` (bands.py): `nover = int(max(0, nfft // 2))`. -/
def nover_bands (n_times : ℕ) : ℕ := max 0 (nfft_bands n_times / 2)

/-! ## Contrast engine — src/eegviz/analysis/contrast.py

`contrast_db(Pb, Pa) = 10.0 * np.log10((Pb + 1e-20) / (Pa + 1e-20))`,
elementwise over equal-length power vectors; modelled over the reals. -/

/-- The `1e-20` regulariser added to both power vectors. -/
noncomputable def contrastEps : ℝ := 1 / 10 ^ 20

/-- Embedding of `contrast_db`: elementwise
`10 * log10((b + 1e-20) / (a + 1e-20))`. -/
noncomputable def contrast_db (Pb Pa : List ℝ) : List ℝ :=
  List.zipWith (fun b a => 10 * Real.logb 10 ((b + contrastEps) / (a + contrastEps))) Pb Pa

/-! ## Temporal frame sequencer — src/eegviz/viz/temporal_gif.py

`build_frames` crops the recording to each candidate window, sizes the FFT,
skips windows that are too short or whose band power is non-finite, and stacks
the survivors.  The recording itself, the numerics of `bandpower_segment` and
`np.percentile` are external; they enter as opaque functions of the window. -/

/-- What `build_frames` observes about a recording: the sample count of
`raw.copy().crop(tmin=a, tmax=b)`, the band-power vector of that segment, the
finiteness of that vector, and the percentile-based colour range over the
stacked frames. -/
structure FrameRec where
  nTimes : ℚ → ℚ → ℕ
  bp : ℚ → ℚ → List ℚ
  bpFinite : ℚ → ℚ → Bool
  colorRange : List (List ℚ) → ℚ × ℚ

/-- The candidate window list of `build_frames`:
`wins = list(sliding_windows(start, end, win_len, step)) or [(start, end)]`. -/
def frameCandidates (start e win step : ℚ) : List (ℚ × ℚ) :=
  let ws := sliding_windows start e win step
  if ws = [] then [(start, e)] else ws

/-- The per-window skip rule of `build_frames`: a window survives when
`nfft = int(min(512, seg.n_times))` is at least 32 and the band-power vector
is entirely finite. -/
def frameSurvives (R : FrameRec) (w : ℚ × ℚ) : Bool :=
  decide (32 ≤ min 512 (R.nTimes w.1 w.2)) && R.bpFinite w.1 w.2

/-- Embedding of `build_frames(raw, fmin, fmax, picks, start, end, win_len,
step, ...)`; the none-triple of the source is `none`, success carries
`(frames, meta, (vmin, vmax))`. -/
def build_frames (R : FrameRec) (start e win step : ℚ) :
    Option (List (List ℚ) × List (ℚ × ℚ) × (ℚ × ℚ)) :=
  if e - start < 1/4 then none
  else if (frameCandidates start e win step).filter (frameSurvives R) = [] then none
  else
    some (((frameCandidates start e win step).filter (frameSurvives R)).map
            (fun w => R.bp w.1 w.2),
          (frameCandidates start e win step).filter (frameSurvives R),
          R.colorRange (((frameCandidates start e win step).filter (frameSurvives R)).map
            (fun w => R.bp w.1 w.2)))

/-! ## Epoch builder — src/eegviz/core/epochs.py

`create_epochs_from_labels` fails before any epoch construction when there are
no annotations, no events, or no requested label among the labels present.
`mne.events_from_annotations` is modelled as yielding one event per annotation
and an event-id map over the sorted distinct labels (codes from 1); the
`mne.Epochs` constructor is an opaque parameter. -/

/-- An annotation / event marker: onset, duration, label. -/
structure Ann where
  onset : ℚ
  dur : ℚ
  label : String
deriving DecidableEq

/-- The failure messages `create_epochs_from_labels` can return, keyed by the
data each message interpolates. -/
inductive EpochsError where
  | noAnnotations
  | noEvents
  | noMatchingLabels (available : List String)
  | noValidEpochs (requested : List String)
deriving DecidableEq

/-- Model of the label universe `mne.events_from_annotations` reports: the
distinct annotation descriptions, in sorted order. -/
def availableLabels (anns : List Ann) : List String :=
  ((anns.map Ann.label).dedup).insertionSort (fun a b => a ≤ b)

/-- Model of the full `mapping` returned by `mne.events_from_annotations`:
one integer code per distinct label, numbered from 1. -/
def labelCodes (anns : List Ann) : List (String × ℕ) :=
  (availableLabels anns).enum.map (fun p => (p.2, p.1 + 1))

/-- Embedding of `EpochManager.create_epochs_from_labels` up to the epoch
construction, which is the opaque parameter `mk` (the `mne.Epochs` call,
returning the list of surviving epochs). -/
def create_epochs_from_labels {β : Type} (mk : List Ann → List (String × ℕ) → List β)
    (anns : List Ann) (labels_to_use : List String) :
    Option (List β) × Option (List (String × ℕ)) × Option EpochsError :=
  if anns.length = 0 then (none, none, some .noAnnotations)
  -- `events, mapping = events_from_annotations(raw)`: in the model the event
  -- list is the annotation list itself, so the `len(events) == 0` check
  -- re-examines `anns.length`.
  else if anns.length = 0 then (none, none, some .noEvents)
  else if ((labelCodes anns).filter (fun p => decide (p.1 ∈ labels_to_use))).length = 0 then
    (none, none, some (.noMatchingLabels ((labelCodes anns).map Prod.fst)))
  else if (mk anns ((labelCodes anns).filter (fun p => decide (p.1 ∈ labels_to_use)))).length = 0
  then (none, none, some (.noValidEpochs labels_to_use))
  else
    (some (mk anns ((labelCodes anns).filter (fun p => decide (p.1 ∈ labels_to_use)))),
     some ((labelCodes anns).filter (fun p => decide (p.1 ∈ labels_to_use))),
     none)

/-! ## CSV marker import — src/eegviz/io/markers_csv.py -/

/-- One parsed CSV row: `latency`, `duration`, `type`. -/
structure CsvRow where
  latency : ℚ
  dur : ℚ
  label : String
deriving DecidableEq

/-- The per-row body of the `add_csv_markers` loop, `T = raw.times[-1]`:
rows with `d <= 0 or o >= T` are skipped; the end time is clipped to `T`, the
onset floored at 0; a row whose clipped extent is empty is skipped. -/
def keepRow (T : ℚ) (r : CsvRow) : Option (ℚ × ℚ × String) :=
  if r.dur ≤ 0 ∨ T ≤ r.latency then none
  else if min T (r.latency + r.dur) - max 0 r.latency ≤ 0 then none
  else some (max 0 r.latency, min T (r.latency + r.dur) - max 0 r.latency, r.label)

/-- The `(on, du, de)` lists accumulated by `add_csv_markers`. -/
def processRows (T : ℚ) (rows : List CsvRow) : List (ℚ × ℚ × String) :=
  rows.filterMap (keepRow T)

/-- The recording state `add_csv_markers` reads and writes: the time of the
last sample (`raw.times[-1]`) and the annotation list. -/
structure RawAnn where
  len : ℚ
  anns : List (ℚ × ℚ × String)
deriving DecidableEq

/-- Embedding of `add_csv_markers(raw, csv)`: returns the recording as the call
leaves it and the reported count.  `if not on: return 0` leaves the annotations
untouched; otherwise the kept rows are appended to the existing annotations. -/
def add_csv_markers (raw : RawAnn) (rows : List CsvRow) : RawAnn × ℕ :=
  let kept := processRows raw.len rows
  if kept.length = 0 then (raw, 0)
  else ({ raw with anns := raw.anns ++ kept }, kept.length)

/-! ## Theorems -/

/-- C1: assigning any (non-`None`) raw recording to a session clears the
processed data, resets the filter-applied flag to `false`, and makes
`get_current_data` return exactly the newly assigned raw recording. -/
theorem set_raw_data_resets_session {α : Type} (s : Session α) (r : α) :
    (set_raw_data s (some r)).processed = none ∧
    (set_raw_data s (some r)).filter_applied = false ∧
    get_current_data (set_raw_data s (some r)) = some r := by
  refine ⟨rfl, rfl, ?_⟩
  simp [set_raw_data, get_current_data]

/-- C8: both band-power estimators size the FFT window as `min(512, n_times)`
floored at 64 samples, use an overlap of exactly half the window, and for any
segment of at least 64 samples the window never exceeds the segment (a
smaller, still-valid window rather than a failure). -/
theorem bandpower_window_sizing (n : ℕ) :
    nover_psd n = nfft_psd n / 2 ∧
    nover_bands n = nfft_bands n / 2 ∧
    nfft_bands n = nfft_psd n ∧ nover_bands n = nover_psd n ∧
    64 ≤ nfft_psd n ∧ nfft_psd n ≤ 512 ∧
    (64 ≤ n → nfft_psd n = min 512 n ∧ nfft_psd n ≤ n) := by
  unfold nover_psd nover_bands nfft_psd nfft_bands
  omega

/-- Closed instance of `bandpower_window_sizing` at a 100-sample segment. -/
theorem bandpower_window_sizing_witness :
    64 ≤ 100 ∧ nfft_psd 100 = min 512 100 ∧ nfft_psd 100 ≤ 100 ∧
    nover_psd 100 = nfft_psd 100 / 2 := by
  refine ⟨by decide, ?_, ?_, (bandpower_window_sizing 100).1⟩
  · exact ((bandpower_window_sizing 100).2.2.2.2.2.2 (by decide)).1
  · exact ((bandpower_window_sizing 100).2.2.2.2.2.2 (by decide)).2

/-- C2 as literally stated is false: with `total = 5`, `start = 10`,
`end = -3` (both bounds outside `[0, 5]`), `restrict_interval` returns
`(5, 5)`, so the clamped end is not strictly greater than the clamped start
even though `total = 5` is nowhere near 0. -/
theorem restrict_interval_claim_cex :
    restrict_interval 5 10 (-3) = (5, 5) ∧
    ¬ ((restrict_interval 5 10 (-3)).1 < (restrict_interval 5 10 (-3)).2) ∧
    (5 : ℚ) ≠ 0 := by
  have hval : restrict_interval 5 10 (-3) = (5, 5) := by
    norm_num [restrict_interval, min_def, max_def]
  refine ⟨hval, ?_, by norm_num⟩
  rw [hval]
  norm_num

/-- C2 (amended): for nonnegative `total` and both bounds outside
`[0, total]`, `restrict_interval` returns a pair within `[0, total]` with
`end > start`, the exceptions being `end == start == total` when `start ≥
total` and `end == start == 0 == total` when `total = 0`; whenever the
clamped end is at most the clamped start, the width of the returned window is
minimum of 0.25 s and the remaining duration `total - start`. -/
theorem restrict_interval_spec (total start e : ℚ) (h0 : 0 ≤ total)
    (_hs : start < 0 ∨ total < start) (_he : e < 0 ∨ total < e) :
    0 ≤ (restrict_interval total start e).1 ∧
    (restrict_interval total start e).1 ≤ total ∧
    0 ≤ (restrict_interval total start e).2 ∧
    (restrict_interval total start e).2 ≤ total ∧
    ((restrict_interval total start e).1 < (restrict_interval total start e).2 ∨
      ((restrict_interval total start e).1 = total ∧
        (restrict_interval total start e).2 = total ∧ (total ≤ start ∨ total = 0))) ∧
    (max 0 (min e total) ≤ max 0 (min start total) →
      (restrict_interval total start e).2 - (restrict_interval total start e).1 =
        min (total - (restrict_interval total start e).1) (1/4)) := by
  have hdef : restrict_interval total start e =
      (max 0 (min start total),
        if max 0 (min e total) ≤ max 0 (min start total)
        then min total (max 0 (min start total) + 1/4)
        else max 0 (min e total)) := rfl
  rw [hdef]
  set s := max 0 (min start total) with hsdef
  set en := max 0 (min e total) with hendef
  have h1 : 0 ≤ s := le_max_left _ _
  have h2 : s ≤ total := max_le h0 (min_le_right _ _)
  have h3 : 0 ≤ en := le_max_left _ _
  have h4 : en ≤ total := max_le h0 (min_le_right _ _)
  by_cases hc : en ≤ s
  · rw [if_pos hc]
    refine ⟨h1, h2, le_min h0 (by linarith), min_le_left _ _, ?_, ?_⟩
    · rcases lt_or_eq_of_le h2 with hlt | heq
      · exact Or.inl (lt_min hlt (by linarith))
      · refine Or.inr ⟨heq, ?_, ?_⟩
        · rw [heq]
          exact min_eq_left (by linarith)
        · rcases le_or_lt total start with hts | hst
          · exact Or.inl hts
          · right
            have hmin : min start total = start := min_eq_left hst.le
            rcases le_or_lt 0 start with hsp | hsn
            · exfalso
              have : s = start := by rw [hsdef, hmin, max_eq_right hsp]
              rw [this] at heq
              exact absurd heq hst.ne
            · have : s = 0 := by rw [hsdef, hmin, max_eq_left hsn.le]
              rw [this] at heq
              exact heq.symm
    · intro _
      rw [← min_sub_sub_right]
      congr 1
      ring
  · rw [if_neg hc]
    push_neg at hc
    exact ⟨h1, h2, h3, h4, Or.inl hc, fun hcon => absurd hcon (not_le.mpr hc)⟩

/-- Closed instance of `restrict_interval_spec` at `total = 5`, `start = 10`,
`end = -3`. -/
theorem restrict_interval_spec_witness :
    (0 : ℚ) ≤ 5 ∧ ((10 : ℚ) < 0 ∨ (5 : ℚ) < 10) ∧ ((-3 : ℚ) < 0 ∨ (5 : ℚ) < -3) ∧
    ((restrict_interval 5 10 (-3)).1 = 5 ∧ (restrict_interval 5 10 (-3)).2 = 5 ∧
      ((5 : ℚ) ≤ 10 ∨ (5 : ℚ) = 0)) := by
  refine ⟨by norm_num, Or.inr (by norm_num), Or.inl (by norm_num), ?_⟩
  have h := restrict_interval_spec 5 10 (-3) (by norm_num)
    (Or.inr (by norm_num)) (Or.inl (by norm_num))
  have hval : restrict_interval 5 10 (-3) = (5, 5) := by
    norm_num [restrict_interval, min_def, max_def]
  rcases h.2.2.2.2.1 with hlt | heq
  · rw [hval] at hlt
    exact absurd hlt (lt_irrefl _)
  · exact heq

/-- C3 as literally stated is false: a 256 Hz recording, no resampling and a
requested `h_freq = 200 ≥ 256/2` yield an effective band-filter cutoff of
exactly `127 = 256/2 - 1.0`, which is `≥ sf/2 - 1.0` (the clamp is "at most",
not "strictly below"). -/
theorem nyquist_claim_cex :
    rate_after_resample 256 none = 256 ∧
    (256 : ℚ) / 2 ≤ 200 ∧
    effective_h_freq 256 (some 200) = 127 ∧
    (256 : ℚ) / 2 - 1 ≤ effective_h_freq 256 (some 200) := by
  refine ⟨rfl, by norm_num, ?_, ?_⟩ <;>
    norm_num [effective_h_freq, pyOrQ, min_def]

/-- C3 (amended): the high cutoff handed to the band filter never exceeds
(current rate after resampling)/2 − 1.0, for every requested `h_freq`
(including none at all); and with no resampling and a requested
`h_freq ≥ sf/2` the effective cutoff is exactly `sf/2 − 1.0`. -/
theorem effective_h_freq_clamped (sf : ℚ) (h_freq resample : Option ℚ) :
    effective_h_freq (rate_after_resample sf resample) h_freq ≤
      rate_after_resample sf resample / 2 - 1 ∧
    (∀ h : ℚ, 0 < sf → sf / 2 ≤ h → h_freq = some h → resample = none →
      effective_h_freq (rate_after_resample sf resample) h_freq = sf / 2 - 1) := by
  constructor
  · exact min_le_right _ _
  · intro h hsf hreq hh hr
    subst hh; subst hr
    have hrate : rate_after_resample sf none = sf := rfl
    rw [hrate]
    have hpos : h ≠ 0 := by
      intro h0
      rw [h0] at hreq
      linarith
    have hor : pyOrQ (some h) (sf / 2 - 1) = h := by
      simp [pyOrQ, hpos]
    unfold effective_h_freq
    rw [hor]
    exact min_eq_right (by linarith)

/-- Closed instance of `effective_h_freq_clamped` at `sf = 256`,
`h_freq = 200`, no resampling. -/
theorem effective_h_freq_clamped_witness :
    (0 : ℚ) < 256 ∧ (256 : ℚ) / 2 ≤ 200 ∧
    effective_h_freq (rate_after_resample 256 none) (some 200) = 256 / 2 - 1 := by
  exact ⟨by norm_num, by norm_num,
    (effective_h_freq_clamped 256 (some 200) none).2 200 (by norm_num) (by norm_num) rfl rfl⟩

/-- C9: the CSV marker importer drops every row whose duration is ≤ 0 or whose
onset is at or beyond the recording length; every surviving marker is clipped
so that its end time stays within the recording and its duration is positive;
and when no row survives the import returns the recording unchanged and
reports 0 markers added. -/
theorem csv_markers_spec (raw : RawAnn) (rows : List CsvRow) :
    (∀ r ∈ rows, (r.dur ≤ 0 ∨ raw.len ≤ r.latency) → keepRow raw.len r = none) ∧
    (∀ x ∈ processRows raw.len rows, x.1 + x.2.1 ≤ raw.len ∧ 0 < x.2.1) ∧
    (processRows raw.len rows = [] → add_csv_markers raw rows = (raw, 0)) := by
  refine ⟨?_, ?_, ?_⟩
  · intro r _ hcond
    unfold keepRow
    rw [if_pos hcond]
  · intro x hx
    obtain ⟨r, _, heq⟩ := List.mem_filterMap.mp hx
    unfold keepRow at heq
    split_ifs at heq with h1 h2
    have hx2 : x = (max 0 r.latency,
        min raw.len (r.latency + r.dur) - max 0 r.latency, r.label) :=
      (Option.some_injective _ heq).symm
    rw [hx2]
    push_neg at h2
    refine ⟨?_, h2⟩
    have : max 0 r.latency + (min raw.len (r.latency + r.dur) - max 0 r.latency) =
        min raw.len (r.latency + r.dur) := by ring
    rw [this]
    exact min_le_left _ _
  · intro h
    unfold add_csv_markers
    rw [h]
    rfl

/-- Closed instance of `csv_markers_spec`: a `latency=100, duration=2, Blink`
row against a recording of length 5 s is dropped entirely and the import
leaves the annotations unchanged, reporting 0. -/
theorem csv_markers_witness :
    keepRow 5 ⟨100, 2, "Blink"⟩ = none ∧
    add_csv_markers ⟨5, []⟩ [⟨100, 2, "Blink"⟩] = (⟨5, []⟩, 0) := by
  constructor
  · exact (csv_markers_spec ⟨5, []⟩ [⟨100, 2, "Blink"⟩]).1 ⟨100, 2, "Blink"⟩
      (List.mem_singleton.mpr rfl) (Or.inr (by norm_num))
  · refine (csv_markers_spec ⟨5, []⟩ [⟨100, 2, "Blink"⟩]).2.2 ?_
    have hnone : keepRow (5 : ℚ) ⟨100, 2, "Blink"⟩ = none := by
      unfold keepRow
      rw [if_pos (Or.inr (by norm_num))]
    unfold processRows
    simp [hnone]

/-- C7: `apply_pipeline` leaves the recording object of the caller untouched
and returns a fresh object (the `raw.copy()` allocation) whose identity
differs from that of the input; with every parameter absent or disabled the
returned copy carries channel data equal to that of the input. -/
theorem apply_pipeline_pure {α : Type} (F : PipelineOps α) (fresh : ℕ) (raw : Obj (Rec α))
    (notch l_freq h_freq resample : Option ℚ) (ref_avg interpolate : Bool)
    (hfresh : fresh ≠ raw.id) :
    (apply_pipeline F fresh raw notch l_freq h_freq resample ref_avg interpolate).1 = raw ∧
    (apply_pipeline F fresh raw notch l_freq h_freq resample ref_avg interpolate).2.id ≠ raw.id ∧
    (apply_pipeline F fresh raw none none none none false false).2.val = raw.val := by
  refine ⟨rfl, ?_, ?_⟩
  · simpa [apply_pipeline] using hfresh
  · simp [apply_pipeline, step_resample, step_notch, step_filter, step_interp, step_ref]

/-- Closed instance of `apply_pipeline_pure` on a concrete recording object
and concrete transform instances. -/
theorem apply_pipeline_pure_witness :
    (1 : ℕ) ≠ demoRaw.id ∧
    (apply_pipeline demoOps 1 demoRaw none none none none false false).1 = demoRaw ∧
    (apply_pipeline demoOps 1 demoRaw none none none none false false).2.id ≠ demoRaw.id ∧
    (apply_pipeline demoOps 1 demoRaw none none none none false false).2.val = demoRaw.val := by
  have h := apply_pipeline_pure demoOps 1 demoRaw none none none none false false
    (by decide)
  exact ⟨by decide, h.1, h.2.1, h.2.2⟩

/-- The `1e-20` regulariser is strictly positive. -/
theorem contrastEps_pos : 0 < contrastEps := by
  unfold contrastEps
  positivity

/-- Elementwise sign flip of the contrast kernel when the two powers swap. -/
theorem contrast_kernel_antisym (b a : ℝ) :
    10 * Real.logb 10 ((b + contrastEps) / (a + contrastEps)) =
      -(10 * Real.logb 10 ((a + contrastEps) / (b + contrastEps))) := by
  rw [show (b + contrastEps) / (a + contrastEps) =
        ((a + contrastEps) / (b + contrastEps))⁻¹ from (inv_div _ _).symm,
     Real.logb_inv]
  ring

/-- Applying `contrast_db` to a nonnegative power vector against itself gives
the zero vector. -/
theorem contrast_db_self (P : List ℝ) (hP : ∀ x ∈ P, 0 ≤ x) :
    contrast_db P P = P.map (fun _ => (0 : ℝ)) := by
  induction P with
  | nil => rfl
  | cons a t ih =>
    have ha : 0 ≤ a := hP a (List.mem_cons_self a t)
    have hpos : a + contrastEps ≠ 0 := by
      have := contrastEps_pos
      positivity
    unfold contrast_db at ih ⊢
    simp only [List.zipWith_cons_cons, List.map_cons]
    rw [div_self hpos, Real.logb_one, mul_zero]
    exact congrArg _ (ih (fun x hx => hP x (List.mem_cons_of_mem a hx)))

/-- C10: for equal-length vectors of nonnegative powers, `contrast_db` is
elementwise antisymmetric under swapping its two arguments, and the contrast
of a vector against itself is identically zero. -/
theorem contrast_db_antisym (Pb Pa : List ℝ) (_hlen : Pb.length = Pa.length)
    (_hb : ∀ x ∈ Pb, 0 ≤ x) (ha : ∀ x ∈ Pa, 0 ≤ x) :
    contrast_db Pb Pa = (contrast_db Pa Pb).map (fun x => -x) ∧
    contrast_db Pa Pa = Pa.map (fun _ => (0 : ℝ)) := by
  refine ⟨?_, contrast_db_self Pa ha⟩
  unfold contrast_db
  rw [List.map_zipWith,
    List.zipWith_comm
      (fun a b => -(10 * Real.logb 10 ((a + contrastEps) / (b + contrastEps)))) Pa Pb]
  have hfun : (fun b a => 10 * Real.logb 10 ((b + contrastEps) / (a + contrastEps))) =
      (fun b a => -(10 * Real.logb 10 ((a + contrastEps) / (b + contrastEps)))) := by
    funext b a
    exact contrast_kernel_antisym b a
  rw [hfun]

/-- Closed instance of `contrast_db_antisym` at the one-channel power vectors
`Pb = [2]`, `Pa = [1]`. -/
theorem contrast_db_antisym_witness :
    ([(2 : ℝ)].length = [(1 : ℝ)].length) ∧
    contrast_db [2] [1] = (contrast_db [1] [2]).map (fun x => -x) ∧
    contrast_db [1] [1] = [(1 : ℝ)].map (fun _ => (0 : ℝ)) := by
  have h := contrast_db_antisym [2] [1] rfl
    (by intro x hx; rw [List.mem_singleton] at hx; rw [hx]; norm_num)
    (by intro x hx; rw [List.mem_singleton] at hx; rw [hx]; norm_num)
  exact ⟨rfl, h.1, h.2⟩

/-- If the loop guard holds for the first `n` iterates of the loop variable and
fails at the `n`-th, then with any fuel `≥ n` the generator loop produces
exactly the `n` windows anchored at `t, t+step, …`. -/
theorem swFuel_of_guards (e win step : ℚ) :
    ∀ (n : ℕ) (t : ℚ) (m : ℕ), n ≤ m →
      (∀ i : ℕ, i < n → t + i * step + win ≤ e + swTol) →
      ¬ (t + n * step + win ≤ e + swTol) →
      swFuel e win step m t =
        (List.range n).map (fun i : ℕ => (t + i * step, t + i * step + win)) := by
  intro n
  induction n with
  | zero =>
    intro t m _ _ hstop
    have hg : ¬ (t + win ≤ e + swTol) := by
      intro hcon
      apply hstop
      push_cast
      linarith
    cases m with
    | zero => rfl
    | succ m => simp [swFuel, hg]
  | succ n ih =>
    intro t m hm hall hstop
    obtain ⟨m1, rfl⟩ : ∃ m1, m = m1 + 1 := ⟨m - 1, by omega⟩
    have hg : t + win ≤ e + swTol := by
      have h0 := hall 0 (Nat.succ_pos n)
      push_cast at h0
      linarith
    have hrec : swFuel e win step m1 (t + step) =
        (List.range n).map
          (fun i : ℕ => (t + step + i * step, t + step + i * step + win)) := by
      apply ih (t + step) m1 (by omega)
      · intro i hi
        have hstep := hall (i + 1) (by omega)
        have harith : t + step + (i : ℚ) * step = t + ((i : ℕ) + 1 : ℕ) * step := by
          push_cast
          ring
        rw [harith]
        exact hstep
      · intro hcon
        apply hstop
        have harith : t + ((n : ℕ) + 1 : ℕ) * step = t + step + (n : ℚ) * step := by
          push_cast
          ring
        rw [harith]
        exact hcon
    show swFuel e win step (m1 + 1) t = _
    rw [swFuel, if_pos hg, hrec, List.range_succ_eq_map, List.map_cons, List.map_map]
    have h0 : (t + (0 : ℕ) * step, t + (0 : ℕ) * step + win) = (t, t + win) := by
      push_cast
      simp
    rw [h0]
    refine congrArg _ ?_
    refine List.map_congr_left ?_
    intro i _
    have h1 : t + ((i + 1 : ℕ) : ℚ) * step = t + step + (i : ℚ) * step := by
      push_cast
      ring
    simp only [Function.comp]
    rw [h1]

/-- For a positive step, the loop guard at the `i`-th iterate holds exactly
when `i < swCount`. -/
theorem swGuard_iff_lt_count (start e win step : ℚ) (h : 0 < step) (i : ℕ) :
    (start + i * step + win ≤ e + swTol) ↔ i < swCount start e win step := by
  unfold swCount
  by_cases h0 : start + win ≤ e + swTol
  · rw [if_pos ⟨h, h0⟩]
    have hq0 : 0 ≤ (e + swTol - start - win) / step :=
      div_nonneg (by linarith) h.le
    have hfl : (0 : ℤ) ≤ ⌊(e + swTol - start - win) / step⌋ :=
      Int.floor_nonneg.mpr hq0
    constructor
    · intro hg
      have hle : (i : ℚ) ≤ (e + swTol - start - win) / step := by
        rw [le_div_iff₀ h]
        linarith
      have hif : (i : ℤ) ≤ ⌊(e + swTol - start - win) / step⌋ :=
        Int.le_floor.mpr (by exact_mod_cast hle)
      omega
    · intro hi
      have h1 : (i : ℤ) ≤ ⌊(e + swTol - start - win) / step⌋ := by omega
      have h2 : (i : ℚ) ≤ (e + swTol - start - win) / step := by
        calc (i : ℚ) = ((i : ℤ) : ℚ) := by push_cast; rfl
        _ ≤ ((⌊(e + swTol - start - win) / step⌋ : ℤ) : ℚ) := by exact_mod_cast h1
        _ ≤ (e + swTol - start - win) / step := Int.floor_le _
      rw [le_div_iff₀ h] at h2
      linarith
  · rw [if_neg (fun hc => h0 hc.2)]
    constructor
    · intro hg
      exfalso
      apply h0
      have hnn : (0 : ℚ) ≤ (i : ℚ) * step := by positivity
      linarith
    · intro hi
      exact absurd hi (Nat.not_lt_zero i)

/-- For a positive step, `sliding_windows` is exactly the `swCount` windows
anchored at `start, start+step, …`. -/
theorem sliding_windows_eq_range (start e win step : ℚ) (h : 0 < step) :
    sliding_windows start e win step =
      (List.range (swCount start e win step)).map
        (fun i : ℕ => (start + i * step, start + i * step + win)) := by
  apply swFuel_of_guards e win step (swCount start e win step) start
    (swCount start e win step) le_rfl
  · intro i hi
    exact (swGuard_iff_lt_count start e win step h i).mpr hi
  · intro hcon
    exact absurd ((swGuard_iff_lt_count start e win step h _).mp hcon)
      (lt_irrefl _)

/-- C6 as literally stated is false: with `start = 0`, `end = 1`,
`window_len = 1/2` and `step = 0` the generator loop guard holds at every
iterate, so the Python loop never terminates and yields no finite sequence at
all. -/
theorem sliding_windows_claim_cex : ¬ swTerminates 0 1 (1/2) 0 := by
  rintro ⟨n, hn⟩
  apply hn
  have h0 : (n : ℚ) * 0 = 0 := mul_zero _
  rw [zero_add, h0, zero_add]
  unfold swTol
  norm_num

/-- C6 (amended): for every positive step, `sliding_windows` terminates and
yields the finite sequence whose `i`-th window is
`(start + i*step, start + i*step + win)`, windows being yielded exactly while
`a + win ≤ end + 1e-9`; the sequence is empty when
`win > end - start + 1e-9`.  (For `step ≤ 0` with a fitting first window the
generator never terminates; see `sliding_windows_claim_cex`.) -/
theorem sliding_windows_spec (start e win step : ℚ) (h : 0 < step) :
    sliding_windows start e win step =
      (List.range (swCount start e win step)).map
        (fun i : ℕ => (start + i * step, start + i * step + win)) ∧
    (∀ i : ℕ, i < swCount start e win step ↔ start + i * step + win ≤ e + swTol) ∧
    swTerminates start e win step ∧
    (e - start + swTol < win → sliding_windows start e win step = []) := by
  refine ⟨sliding_windows_eq_range start e win step h,
    fun i => (swGuard_iff_lt_count start e win step h i).symm, ?_, ?_⟩
  · exact ⟨swCount start e win step,
      fun hcon => absurd ((swGuard_iff_lt_count start e win step h _).mp hcon)
        (lt_irrefl _)⟩
  · intro hwin
    rw [sliding_windows_eq_range start e win step h]
    have hz : swCount start e win step = 0 := by
      unfold swCount
      rw [if_neg]
      rintro ⟨_, hg⟩
      linarith
    rw [hz]
    rfl

/-- Closed instance of `sliding_windows_spec` at
`start = 0, end = 1, win = 1/2, step = 1`: one window, `(0, 1/2)`. -/
theorem sliding_windows_spec_witness :
    (0 : ℚ) < 1 ∧ sliding_windows 0 1 (1/2) 1 = [(0, 1/2)] := by
  refine ⟨by norm_num, ?_⟩
  rw [(sliding_windows_spec 0 1 (1/2) 1 (by norm_num)).1]
  have hcount : swCount 0 1 (1/2) 1 = 1 := by
    unfold swCount swTol
    rw [if_pos (by norm_num)]
    norm_num
  rw [hcount]
  simp [List.range_succ]

/-- C4: `build_frames` returns the none-triple whenever `end - start < 0.25`,
and whenever no candidate window survives the per-window skip rules; when the
sliding-window generator yields no windows but the segment is long enough and
the single fallback window survives the skip rules, the output is exactly one
frame spanning `[start, end]`. -/
theorem build_frames_spec (R : FrameRec) (start e win step : ℚ) :
    (e - start < 1/4 → build_frames R start e win step = none) ∧
    ((∀ w ∈ frameCandidates start e win step, frameSurvives R w = false) →
      build_frames R start e win step = none) ∧
    (¬ (e - start < 1/4) → sliding_windows start e win step = [] →
      frameSurvives R (start, e) = true →
      build_frames R start e win step =
        some ([R.bp start e], [(start, e)], R.colorRange [R.bp start e])) := by
  refine ⟨?_, ?_, ?_⟩
  · intro h
    unfold build_frames
    rw [if_pos h]
  · intro hall
    unfold build_frames
    by_cases h : e - start < 1/4
    · rw [if_pos h]
    · rw [if_neg h]
      have hnil : (frameCandidates start e win step).filter (frameSurvives R) = [] := by
        rw [List.filter_eq_nil_iff]
        intro w hw
        rw [hall w hw]
        exact Bool.false_ne_true
      rw [if_pos hnil]
  · intro h1 h2 h3
    have hcand : frameCandidates start e win step = [(start, e)] := by
      unfold frameCandidates
      rw [h2]
      rfl
    have hfil : (frameCandidates start e win step).filter (frameSurvives R) = [(start, e)] := by
      rw [hcand, List.filter_cons, h3]
      rfl
    unfold build_frames
    rw [if_neg h1, hfil]
    rfl

/-- Closed instance of `build_frames_spec`: a 1-second segment, a 2-second
window that no sliding window fits, an everywhere-finite band power and ample
samples, giving exactly the single frame spanning `[0, 1]`. -/
theorem build_frames_spec_witness :
    ¬ ((1 : ℚ) - 0 < 1/4) ∧
    sliding_windows 0 1 2 1 = [] ∧
    frameSurvives ⟨fun _ _ => 1000, fun _ _ => [1], fun _ _ => true, fun _ => (0, 1)⟩
      (0, 1) = true ∧
    build_frames ⟨fun _ _ => 1000, fun _ _ => [1], fun _ _ => true, fun _ => (0, 1)⟩
      0 1 2 1 = some ([[1]], [(0, 1)], (0, 1)) := by
  have hsw : sliding_windows 0 1 2 1 = [] := by
    have hz : swCount 0 1 2 1 = 0 := by
      unfold swCount swTol
      rw [if_neg]
      rintro ⟨_, hg⟩
      norm_num at hg
    unfold sliding_windows
    rw [hz]
    rfl
  have hsurv : frameSurvives
      ⟨fun _ _ => 1000, fun _ _ => [1], fun _ _ => true, fun _ => ((0 : ℚ), (1 : ℚ))⟩
      ((0 : ℚ), (1 : ℚ)) = true := by
    unfold frameSurvives
    decide
  exact ⟨by norm_num, hsw, hsurv,
    (build_frames_spec _ 0 1 2 1).2.2 (by norm_num) hsw hsurv⟩

/-- The keys of the modelled event-id mapping are exactly the available
labels. -/
theorem labelCodes_map_fst (anns : List Ann) :
    (labelCodes anns).map Prod.fst = availableLabels anns := by
  unfold labelCodes
  rw [List.map_map]
  exact List.enum_map_snd (availableLabels anns)

/-- A label is available iff some annotation carries it. -/
theorem mem_availableLabels {anns : List Ann} {l : String} :
    l ∈ availableLabels anns ↔ l ∈ anns.map Ann.label := by
  unfold availableLabels
  rw [(List.perm_insertionSort (fun a b => a ≤ b) ((anns.map Ann.label).dedup)).mem_iff]
  exact List.mem_dedup

/-- C5: with zero annotations `create_epochs_from_labels` fails with the
no-annotations error; with at least one annotation (hence at least one event)
and a requested label list disjoint from the labels present, it fails with the
no-matching-labels error reporting exactly the available labels — in both
cases with no epoch set and no label-code map, never an empty-but-successful
result. -/
theorem create_epochs_spec {β : Type} (mk : List Ann → List (String × ℕ) → List β)
    (anns : List Ann) (labels : List String) :
    (anns = [] →
      create_epochs_from_labels mk anns labels = (none, none, some .noAnnotations)) ∧
    (anns ≠ [] → (∀ a ∈ anns, a.label ∉ labels) →
      create_epochs_from_labels mk anns labels =
        (none, none, some (.noMatchingLabels (availableLabels anns)))) := by
  constructor
  · intro h
    subst h
    rfl
  · intro hne hdisj
    have hlen : ¬ (anns.length = 0) := by
      simpa [List.length_eq_zero] using hne
    have hfil : (labelCodes anns).filter (fun p => decide (p.1 ∈ labels)) = [] := by
      rw [List.filter_eq_nil_iff]
      intro p hp
      have hkey : p.1 ∈ availableLabels anns := by
        have hmem := List.mem_map_of_mem Prod.fst hp
        rwa [labelCodes_map_fst] at hmem
      rw [mem_availableLabels] at hkey
      obtain ⟨a, ha, hlab⟩ := List.mem_map.mp hkey
      simpa [← hlab] using hdisj a ha
    unfold create_epochs_from_labels
    rw [if_neg hlen, if_neg hlen, hfil]
    simp [labelCodes_map_fst]

/-- Closed instance of `create_epochs_spec`: one annotation labelled `A`, the
requested label `B` absent, yielding the no-matching-labels failure that
reports the available label `A`. -/
theorem create_epochs_spec_witness :
    (([⟨0, 1, "A"⟩] : List Ann) ≠ []) ∧
    create_epochs_from_labels (fun _ _ => ([] : List Unit)) [⟨0, 1, "A"⟩] ["B"] =
      (none, none, some (.noMatchingLabels ["A"])) := by
  have hne : (([⟨0, 1, "A"⟩] : List Ann) ≠ []) := by decide
  have h := (create_epochs_spec (fun _ _ => ([] : List Unit)) [⟨0, 1, "A"⟩] ["B"]).2 hne
    (by decide)
  have havail : availableLabels [⟨0, 1, "A"⟩] = ["A"] := by decide
  rw [havail] at h
  exact ⟨hne, h⟩

end EegViz
